import Mathlib

/-!
# go-axios: a shallow embedding of the configuration merge and interceptor pipeline

This file embeds the core of the `go-axios` HTTP client wrapper
(`src/axios/config.go`, `src/axios/client.go`, and the error/response files)
into Lean 4 and proves the specified properties of the configuration-merge
algorithm, the interceptor pipeline, and the dispatch path.

Modelling conventions:
* A Go `map[string]V` is modelled as an association list `List (String × V)`
  with unique keys; iteration order of a map (nondeterministic in Go) is fixed
  to the list order, which makes every operation deterministic and executable.
* A Go `[]byte` is a `List Nat` (`none` for a nil slice where nil-ness matters).
* A nil `http.Header` / nil map is `Option`'s `none`.
* Functions returning `(T, error)` are modelled with `Except GoError T`;
  code paths that can panic (calling a nil function value) are modelled with
  the dedicated `GoResult` type that has a `panicked` outcome.
* The external HTTP stack (request construction and transport execution) is a
  parameter of the dispatch model; the ambient `context.Context` is absorbed
  into those parameters (a context only influences the behaviour of the host
  transport, never the wrapper's own control flow).
-/

namespace GoAxios

/-- Go `[]byte` contents. -/
abbrev Bytes := List Nat

/-- Contents of a Go `http.Header` (`map[string][]string`), as an association
list in a fixed iteration order. -/
abbrev HeaderMap := List (String × List String)

/-- Contents of a Go `map[string]string` (query params). -/
abbrev ParamMap := List (String × String)

/-! ## Canonical MIME header keys (net/textproto)

`http.Header.Set`/`Add` canonicalise their key via
`textproto.CanonicalMIMEHeaderKey`: if every byte of the key is a valid header
field byte, the first letter and every letter following a hyphen is upper-cased
and all other letters are lower-cased; otherwise the key is returned unchanged.
-/

/-- `validHeaderFieldByte` of net/textproto: letters, digits and the token
punctuation. The character codes 39 and 96 are the apostrophe and the grave
accent, both token characters. -/
def validHeaderFieldChar (c : Char) : Bool :=
  c.isAlphanum ||
    match c with
    | '!' | '#' | '$' | '%' | '&' | '*' | '+' | '-' | '.' | '^' | '_' | '|' | '~' => true
    | _ => c.toNat = 39 || c.toNat = 96

/-- The case-normalisation loop of `canonicalMIMEHeaderKey`: `upper` tracks
whether the next letter begins a word (start of string or after a hyphen). -/
def canonChars : Bool → List Char → List Char
  | _, [] => []
  | upper, c :: cs =>
    let c2 := if upper then c.toUpper else c.toLower
    c2 :: canonChars (c2 = '-') cs

/-- `textproto.CanonicalMIMEHeaderKey`. -/
def canonicalMIMEHeaderKey (s : String) : String :=
  if s.data.all validHeaderFieldChar then ⟨canonChars true s.data⟩ else s

/-! ## Generic map operations (Go map reads and writes on the model) -/

/-- Go map read `m[k]` (`none` when the key is absent). -/
def lookupA {α : Type} (c : String) : List (String × α) → Option α
  | [] => none
  | (k, v) :: t => if k = c then some v else lookupA c t

/-- Go map write `m[k] = v`: replaces the value of an existing key in place,
otherwise adds the key. -/
def setA {α : Type} : List (String × α) → String → α → List (String × α)
  | [], k, v => [(k, v)]
  | (k0, v0) :: t, k, v => if k0 = k then (k, v) :: t else (k0, v0) :: setA t k v

/-- The key set of a map, in iteration order. -/
def keysA {α : Type} (m : List (String × α)) : List String := m.map Prod.fst

/-- A sequence of map writes applied left to right. -/
def applyWrites {α : Type} (m : List (String × α)) (ws : List (String × α)) :
    List (String × α) :=
  ws.foldl (fun acc w => setA acc w.1 w.2) m

/-- The value of the last write to key `c` in a write sequence, if any. -/
def lastWrite {α : Type} (c : String) : List (String × α) → Option α
  | [] => none
  | w :: ws =>
    match lastWrite c ws with
    | some v => some v
    | none => if w.1 = c then some w.2 else none

/-- `http.Header.Set key value`: sets the canonical key to the singleton list. -/
def headerSet (m : HeaderMap) (k v : String) : HeaderMap :=
  setA m (canonicalMIMEHeaderKey k) [v]

/-- Appends a value to a key's list in place, adding the key at the end when
absent (the model of `append(h[k], value)` under a map write). -/
def appendAt : HeaderMap → String → String → HeaderMap
  | [], k, v => [(k, [v])]
  | (k0, vs) :: t, k, v =>
    if k0 = k then (k0, vs ++ [v]) :: t else (k0, vs) :: appendAt t k v

/-- `http.Header.Add key value`: appends to the canonical key's value list. -/
def headerAdd (m : HeaderMap) (k v : String) : HeaderMap :=
  appendAt m (canonicalMIMEHeaderKey k) v

/-! ## Configuration (config.go) -/

/-- `Config` of config.go. `headers`/`params` are `none` for a nil map;
`body` is `none` for a nil `[]byte`; `timeout` is a Go `int`. -/
structure Config where
  method : String
  url : String
  headers : Option HeaderMap
  params : Option ParamMap
  body : Option Bytes
  timeout : Int
deriving DecidableEq

/-- `mergeHeaders` of config.go, value-level semantics: start from the default
headers (an empty map when nil) and run `Set key value` for every key of the
user headers and every value in its list, in iteration order. -/
def mergeHeaders (defaultHeaders userHeaders : Option HeaderMap) : HeaderMap :=
  (userHeaders.getD []).foldl
    (fun acc kv => kv.2.foldl (fun a v => headerSet a kv.1 v) acc)
    (defaultHeaders.getD [])

/-- `mergeParams` of config.go: start from the default params (an empty map
when nil) and write every user entry over it. -/
def mergeParams (defaultParams userParams : Option ParamMap) : ParamMap :=
  (userParams.getD []).foldl (fun acc kv => setA acc kv.1 kv.2)
    (defaultParams.getD [])

/-- `mergeConfig` of config.go: start from the default config; `method`, `url`
win for the user config iff non-empty, `body` iff non-nil, `timeout` iff
non-zero; headers and params are merged by `mergeHeaders`/`mergeParams`
(the merged config therefore always carries non-nil header/param maps). -/
def mergeConfig (defaultConfig userConfig : Config) : Config where
  method := if userConfig.method ≠ "" then userConfig.method else defaultConfig.method
  url := if userConfig.url ≠ "" then userConfig.url else defaultConfig.url
  headers := some (mergeHeaders defaultConfig.headers userConfig.headers)
  params := some (mergeParams defaultConfig.params userConfig.params)
  body := if userConfig.body ≠ none then userConfig.body else defaultConfig.body
  timeout := if userConfig.timeout ≠ 0 then userConfig.timeout else defaultConfig.timeout

/-! ## A reference-semantics model of `mergeHeaders`

In Go, `http.Header` is a map reference: `mergeHeaders` writes through the
`defaultHeaders` reference when it is non-nil and returns that same reference.
To state aliasing/mutation facts we model the heap of header maps explicitly:
a Go `http.Header` variable is `none` (nil) or a pointer into the heap. -/

/-- The heap of live header maps; a pointer is an index into `maps`. -/
structure HeaderHeap where
  maps : List HeaderMap
deriving DecidableEq

/-- Dereference a pointer. -/
def HeaderHeap.get (h : HeaderHeap) (p : Nat) : HeaderMap := h.maps.getD p []

/-- Overwrite the map a pointer refers to. -/
def HeaderHeap.set (h : HeaderHeap) (p : Nat) (m : HeaderMap) : HeaderHeap :=
  ⟨h.maps.set p m⟩

/-- Allocate a fresh map, returning the new heap and its pointer. -/
def HeaderHeap.alloc (h : HeaderHeap) (m : HeaderMap) : HeaderHeap × Nat :=
  (⟨h.maps ++ [m]⟩, h.maps.length)

/-- The write sequence performed by `mergeHeaders`' loop nest: one `Set` per
value, under the canonical key, in iteration order. -/
def headerWrites (u : HeaderMap) : List (String × List String) :=
  u.flatMap (fun kv => kv.2.map (fun v => (canonicalMIMEHeaderKey kv.1, [v])))

/-- `mergeHeaders` of config.go with Go reference semantics: when
`defaultHeaders` is nil a fresh empty map is allocated, otherwise the loop of
`Set` calls writes through the `defaultHeaders` pointer itself, and that very
pointer is returned. (The user map is read up front, which agrees with Go
whenever the two arguments are distinct references.) -/
def mergeHeadersRef (h : HeaderHeap) (defaultHeaders userHeaders : Option Nat) :
    HeaderHeap × Nat :=
  let alloc : HeaderHeap × Nat :=
    match defaultHeaders with
    | none => h.alloc []
    | some p => (h, p)
  let h1 := alloc.1
  let p := alloc.2
  let u : HeaderMap :=
    match userHeaders with
    | none => []
    | some q => h1.get q
  (h1.set p (applyWrites (h1.get p) (headerWrites u)), p)

/-! ## Errors, responses, interceptors (the error/response files, client.go) -/

/-- `RequestError` of the error file: the structured HTTP-status error. -/
structure RequestError where
  statusCode : Nat
  method : String
  url : String
  message : String
  body : Bytes
deriving DecidableEq

/-- Go `error` values produced by this code base: an opaque error (`msg`), an
error produced by `fmt.Errorf("...: %w", ..., cause)` (`wrapped` keeps the
format prefix and the wrapped cause), or a `*RequestError`. -/
inductive GoError where
  | msg : String → GoError
  | wrapped : String → GoError → GoError
  | requestError : RequestError → GoError
deriving DecidableEq

/-- Outcome of a Go call that returns `(T, error)` and may panic:
`ok`/`err` model the two return shapes, `panicked` models a runtime panic
(here: calling a nil function value). -/
inductive GoResult (α : Type) where
  | ok : α → GoResult α
  | err : GoError → GoResult α
  | panicked : GoResult α
deriving DecidableEq

/-- The outgoing `*http.Request` as far as this code base observes it:
method, URL, header map and body. -/
structure HttpRequest where
  method : String
  url : String
  header : HeaderMap
  body : Option Bytes
deriving DecidableEq

/-- `Response` of the response file: the parsed HTTP response. -/
structure Response where
  status : String
  statusCode : Nat
  body : Bytes
  headers : HeaderMap
deriving DecidableEq

/-- The raw `*http.Response` handed back by the transport. `bodyRead` is the
outcome of `io.ReadAll(resp.Body)` (reading the stream is part of the reply
the host transport determines); `reqMethod`/`reqURL` mirror `resp.Request`. -/
structure HttpResponse where
  status : String
  statusCode : Nat
  header : HeaderMap
  bodyRead : Except GoError Bytes
  reqMethod : String
  reqURL : String

/-- `Interceptor` of client.go: an optional request transform and an optional
response transform; `none` models a nil function field. -/
structure Interceptor where
  request : Option (HttpRequest → Except GoError HttpRequest)
  response : Option (Response → Except GoError Response)

/-- The loop of `ApplyRequestInterceptors`, with the running zero-based index.
Each step calls `interceptor.Request(req)`: when that function field is nil the
call panics; when it returns an error the loop stops and wraps it as
`fmt.Errorf("request interceptor %d failed: %w", idx, err)`. -/
def applyRequestInterceptorsAux :
    List Interceptor → Nat → HttpRequest → GoResult HttpRequest
  | [], _, req => .ok req
  | i :: rest, idx, req =>
    match i.request with
    | none => .panicked
    | some f =>
      match f req with
      | .ok req2 => applyRequestInterceptorsAux rest (idx + 1) req2
      | .error e =>
          .err (.wrapped ("request interceptor " ++ toString idx ++ " failed") e)

/-- `ApplyRequestInterceptors` of client.go. -/
def applyRequestInterceptors (interceptors : List Interceptor)
    (req : HttpRequest) : GoResult HttpRequest :=
  applyRequestInterceptorsAux interceptors 0 req

/-- The loop of `ApplyResponseInterceptors` (symmetric to the request loop). -/
def applyResponseInterceptorsAux :
    List Interceptor → Nat → Response → GoResult Response
  | [], _, resp => .ok resp
  | i :: rest, idx, resp =>
    match i.response with
    | none => .panicked
    | some f =>
      match f resp with
      | .ok resp2 => applyResponseInterceptorsAux rest (idx + 1) resp2
      | .error e =>
          .err (.wrapped ("response interceptor " ++ toString idx ++ " failed") e)

/-- `ApplyResponseInterceptors` of client.go. -/
def applyResponseInterceptors (interceptors : List Interceptor)
    (resp : Response) : GoResult Response :=
  applyResponseInterceptorsAux interceptors 0 resp

/-! ## Error classification and response parsing -/

/-- Models `net/http.StatusText` for the status codes exercised in this
development (the reason phrase of unlisted codes is immaterial to every claim
and defaults to the empty string, as `StatusText` itself does for unknown
codes). -/
def statusText (code : Nat) : String :=
  if code = 200 then "OK"
  else if code = 201 then "Created"
  else if code = 204 then "No Content"
  else if code = 301 then "Moved Permanently"
  else if code = 302 then "Found"
  else if code = 400 then "Bad Request"
  else if code = 401 then "Unauthorized"
  else if code = 403 then "Forbidden"
  else if code = 404 then "Not Found"
  else if code = 500 then "Internal Server Error"
  else if code = 502 then "Bad Gateway"
  else if code = 503 then "Service Unavailable"
  else ""

/-- The `RequestError` value built by `HandleResponseError` for an erroneous
response: status code, the originating request's method and URL, the standard
reason phrase, and the best-effort response body (empty when the body read
failed or the body was empty). -/
def mkRequestError (resp : HttpResponse) : RequestError where
  statusCode := resp.statusCode
  method := resp.reqMethod
  url := resp.reqURL
  message := statusText resp.statusCode
  body :=
    match resp.bodyRead with
    | .ok b => if b.length > 0 then b else []
    | .error _ => []

/-- `HandleResponseError` of the error file: a `*RequestError` when the status
code is at least 400, nil otherwise. -/
def handleResponseError (resp : HttpResponse) : Option GoError :=
  if 400 ≤ resp.statusCode then some (.requestError (mkRequestError resp))
  else none

/-- `ParseResponse` of the response file: read the body (wrapping a read
failure) and package status, code, body and headers. -/
def parseResponse (resp : HttpResponse) : Except GoError Response :=
  match resp.bodyRead with
  | .error e => .error (.wrapped "reading response body" e)
  | .ok b =>
      .ok { status := resp.status, statusCode := resp.statusCode,
            body := b, headers := resp.header }

/-! ## The client and its dispatch (client.go) -/

/-- `prepareRequestBody` of client.go: nil body ⇒ nil reader; otherwise a
buffer over the config's bytes. It never fails. -/
def prepareRequestBody (config : Config) : Except GoError (Option Bytes) :=
  match config.body with
  | none => .ok none
  | some b => .ok (some b)

/-- The dispatch step of client.go lines 103-108: copy every header of the
merged configuration onto the request with `Add` (additive) semantics. -/
def copyConfigHeaders (req : HttpRequest) (headers : HeaderMap) : HttpRequest :=
  { req with
    header := headers.foldl
      (fun acc kv => kv.2.foldl (fun a v => headerAdd a kv.1 v) acc)
      req.header }

/-- `Client` of client.go, restricted to what dispatch observes: the base
configuration and the interceptor registry (`NewClient` always installs a
manager, so the nil-manager guard of `Request` never fires). The host
`http.Client` is passed to `Request` as the `transport` parameter. -/
structure Client where
  config : Config
  interceptors : List Interceptor

/-- `Request` of client.go. `newRequest` models
`http.NewRequestWithContext(ctx, method, url, body)` and `transport` models
`c.httpClient.Do` — both are host-environment collaborators, already closed
over the ambient context. Steps, as in the source: merge configs, prepare the
body, build the request, apply the request interceptors (wrapping a failure),
copy the merged config's headers additively, execute, turn a status ≥ 400 into
the `HandleResponseError` error, otherwise parse and return the response. -/
def Client.Request (c : Client)
    (newRequest : String → String → Option Bytes → Except GoError HttpRequest)
    (transport : HttpRequest → Except GoError HttpResponse)
    (config : Config) : GoResult Response :=
  let finalConfig := mergeConfig c.config config
  match prepareRequestBody finalConfig with
  | .error e => .err (.wrapped "preparing request body" e)
  | .ok body =>
    match newRequest finalConfig.method finalConfig.url body with
    | .error e => .err (.wrapped "creating request" e)
    | .ok req =>
      match applyRequestInterceptors c.interceptors req with
      | .panicked => .panicked
      | .err e => .err (.wrapped "applying request interceptors" e)
      | .ok req2 =>
        let req3 := copyConfigHeaders req2 (finalConfig.headers.getD [])
        match transport req3 with
        | .error e => .err (.wrapped "executing request" e)
        | .ok resp =>
          if 400 ≤ resp.statusCode then
            -- `return nil, HandleResponseError(resp)`; on this branch
            -- `HandleResponseError` always yields the `RequestError`.
            .err (.requestError (mkRequestError resp))
          else
            match parseResponse resp with
            | .error e => .err e
            | .ok r => .ok r

/-- `CancelableRequest` of client.go: delegates to `Request` unchanged. -/
def Client.CancelableRequest (c : Client)
    (newRequest : String → String → Option Bytes → Except GoError HttpRequest)
    (transport : HttpRequest → Except GoError HttpResponse)
    (config : Config) : GoResult Response :=
  c.Request newRequest transport config

/-! ## Derived views used to state the header properties -/

/-- The `Add` sequence performed by the dispatch's header-copy step: one add
per configured value, under the canonical key, in iteration order. -/
def headerAddWrites (h : HeaderMap) : List (String × String) :=
  h.flatMap (fun kv => kv.2.map (fun v => (canonicalMIMEHeaderKey kv.1, v)))

/-- A sequence of `Add`-style writes applied left to right. -/
def applyAdds (m : HeaderMap) (ws : List (String × String)) : HeaderMap :=
  ws.foldl (fun acc w => appendAt acc w.1 w.2) m

/-- All values the header-copy step adds under canonical key `c`, in order. -/
def addedVals (c : String) (h : HeaderMap) : List String :=
  ((headerAddWrites h).filter (fun w => w.1 == c)).map Prod.snd

/-- Drops an interceptor's response half (used to state that dispatch never
invokes the response stage). -/
def stripResponseHalf (i : Interceptor) : Interceptor :=
  { i with response := none }

/-! ## Concrete fixtures (used by counterexamples and witnesses) -/

/-- An interceptor carrying both transform halves, each the identity. -/
def idInterceptor : Interceptor where
  request := some (fun r => .ok r)
  response := some (fun r => .ok r)

/-- An interceptor whose both halves fail with an opaque error. -/
def failInterceptor : Interceptor where
  request := some (fun _ => .error (.msg "boom"))
  response := some (fun _ => .error (.msg "boom"))

/-- An interceptor with only a response half (its `Request` function is nil),
as registered by the repository's own README example. -/
def responseOnlyInterceptor : Interceptor where
  request := none
  response := some (fun r => .ok r)

/-- An interceptor with only a request half (its `Response` function is nil). -/
def requestOnlyInterceptor : Interceptor where
  request := some (fun r => .ok r)
  response := none

/-- A concrete outgoing request. -/
def reqA : HttpRequest where
  method := "GET"
  url := "http://example.test"
  header := []
  body := none

/-- A concrete parsed response. -/
def respA : Response where
  status := "200 OK"
  statusCode := 200
  body := []
  headers := []

/-- A heap holding a base header map (pointer 0) and an override map
(pointer 1). -/
def heap2 : HeaderHeap := ⟨[[("A", ["1"])], [("A", ["2"])]]⟩

/-- An empty client-level default configuration. -/
def cfgEmpty : Config where
  method := ""
  url := ""
  headers := none
  params := none
  body := none
  timeout := 0

/-- A concrete per-call configuration. -/
def cfgGet : Config where
  method := "GET"
  url := "http://example.test"
  headers := none
  params := none
  body := none
  timeout := 0

/-- A client with the empty default configuration and no interceptors. -/
def clientA : Client where
  config := cfgEmpty
  interceptors := []

/-- A request constructor that always succeeds (the normal host behaviour). -/
def newRequestOk : String → String → Option Bytes → Except GoError HttpRequest :=
  fun m u b => .ok { method := m, url := u, header := [], body := b }

/-- A transport reply with status 500 and an empty, readable body. -/
def httpResp500 : HttpResponse where
  status := "500 Internal Server Error"
  statusCode := 500
  header := []
  bodyRead := .ok []
  reqMethod := "GET"
  reqURL := "http://example.test"

/-- A transport reply with status 200 and an empty, readable body. -/
def httpResp200 : HttpResponse where
  status := "200 OK"
  statusCode := 200
  header := []
  bodyRead := .ok []
  reqMethod := "GET"
  reqURL := "http://example.test"

/-- A transport that always replies with `httpResp500`. -/
def transport500 : HttpRequest → Except GoError HttpResponse :=
  fun _ => .ok httpResp500

/-- A transport that always replies with `httpResp200`. -/
def transport200 : HttpRequest → Except GoError HttpResponse :=
  fun _ => .ok httpResp200

/-- A concrete base configuration with headers, params, body and timeout. -/
def cfgBase : Config where
  method := "GET"
  url := "http://base.test"
  headers := some [("A", ["1"]), ("B", ["7"])]
  params := some [("p", "1"), ("q", "2")]
  body := some [1, 2]
  timeout := 5

/-- A concrete override configuration exercising every precedence rule. -/
def cfgOver : Config where
  method := "POST"
  url := ""
  headers := some [("A", ["2", "3"]), ("C", ["9"])]
  params := some [("p", "3")]
  body := none
  timeout := 0

/-- A client whose single registered interceptor fails at both stages. -/
def clientFail : Client where
  config := cfgEmpty
  interceptors := [failInterceptor]

/-! ## Lemmas: single map writes -/

theorem lookupA_setA {α : Type} (m : List (String × α)) (k : String) (v : α)
    (c : String) :
    lookupA c (setA m k v) = if k = c then some v else lookupA c m := by
  induction m with
  | nil => simp [setA, lookupA]
  | cons hd t ih =>
    obtain ⟨k0, v0⟩ := hd
    by_cases h0 : k0 = k
    · subst h0
      simp only [setA, if_pos rfl, lookupA]
      split_ifs <;> rfl
    · simp only [setA, if_neg h0, lookupA]
      rw [ih]
      split_ifs <;> simp_all

theorem keysA_cons {α : Type} (kv : String × α) (t : List (String × α)) :
    keysA (kv :: t) = kv.1 :: keysA t := rfl

theorem keysA_setA {α : Type} (m : List (String × α)) (k : String) (v : α) :
    keysA (setA m k v) = if k ∈ keysA m then keysA m else keysA m ++ [k] := by
  induction m with
  | nil => simp [setA, keysA]
  | cons hd t ih =>
    obtain ⟨k0, v0⟩ := hd
    by_cases h0 : k0 = k
    · subst h0
      simp [setA, keysA_cons, List.mem_cons]
    · simp only [setA, if_neg h0, keysA_cons, List.mem_cons]
      rw [ih]
      by_cases h1 : k ∈ keysA t
      · rw [if_pos h1, if_pos (Or.inr h1)]
      · rw [if_neg h1, if_neg (by rintro (h | h); exacts [h0 h.symm, h1 h])]
        simp

theorem lookupA_eq_none {α : Type} (m : List (String × α)) (c : String)
    (h : c ∉ keysA m) : lookupA c m = none := by
  induction m with
  | nil => rfl
  | cons hd t ih =>
    simp only [keysA_cons, List.mem_cons] at h
    push_neg at h
    simp only [lookupA]
    rw [if_neg (fun he => h.1 he.symm)]
    exact ih h.2

theorem nodup_keysA_setA {α : Type} (m : List (String × α)) (k : String) (v : α)
    (h : (keysA m).Nodup) : (keysA (setA m k v)).Nodup := by
  rw [keysA_setA]
  split_ifs with hm
  · exact h
  · simp [List.nodup_append, h, hm]

theorem mem_keysA_setA_self {α : Type} (m : List (String × α)) (k : String)
    (v : α) : k ∈ keysA (setA m k v) := by
  rw [keysA_setA]
  split_ifs with hm
  · exact hm
  · simp

theorem mem_keysA_setA_of_mem {α : Type} (m : List (String × α)) (k : String)
    (v : α) (c : String) (h : c ∈ keysA m) : c ∈ keysA (setA m k v) := by
  rw [keysA_setA]
  split_ifs <;> simp [h]

/-! ## Lemmas: write sequences -/

theorem applyWrites_cons {α : Type} (m : List (String × α)) (w : String × α)
    (ws : List (String × α)) :
    applyWrites m (w :: ws) = applyWrites (setA m w.1 w.2) ws := rfl

theorem applyWrites_append {α : Type} (m : List (String × α))
    (ws1 ws2 : List (String × α)) :
    applyWrites m (ws1 ++ ws2) = applyWrites (applyWrites m ws1) ws2 := by
  simp [applyWrites, List.foldl_append]

theorem lookupA_applyWrites {α : Type} (ws : List (String × α)) :
    ∀ (m : List (String × α)) (c : String),
      lookupA c (applyWrites m ws) =
        match lastWrite c ws with
        | some v => some v
        | none => lookupA c m := by
  induction ws with
  | nil => intro m c; rfl
  | cons w ws ih =>
    intro m c
    rw [applyWrites_cons, ih]
    simp only [lastWrite]
    cases hlw : lastWrite c ws with
    | some v => simp
    | none =>
      simp only
      rw [lookupA_setA]
      by_cases hw : w.1 = c <;> simp [hw]

theorem keysA_applyWrites_of_mem {α : Type} (ws : List (String × α)) :
    ∀ m : List (String × α), (∀ w ∈ ws, w.1 ∈ keysA m) →
      keysA (applyWrites m ws) = keysA m := by
  induction ws with
  | nil => intro m _; rfl
  | cons w ws ih =>
    intro m h
    rw [applyWrites_cons]
    have hw : w.1 ∈ keysA m := h w (by simp)
    have hk : keysA (setA m w.1 w.2) = keysA m := by rw [keysA_setA]; simp [hw]
    rw [ih (setA m w.1 w.2) (fun w2 hw2 => by rw [hk]; exact h w2 (by simp [hw2])),
      hk]

theorem mem_keysA_applyWrites_of_mem_keysA {α : Type} (ws : List (String × α)) :
    ∀ (m : List (String × α)) (c : String),
      c ∈ keysA m → c ∈ keysA (applyWrites m ws) := by
  induction ws with
  | nil => intro m c h; exact h
  | cons w ws ih =>
    intro m c h
    rw [applyWrites_cons]
    exact ih _ _ (mem_keysA_setA_of_mem _ _ _ _ h)

theorem mem_keysA_applyWrites {α : Type} (ws : List (String × α)) :
    ∀ m : List (String × α), ∀ w ∈ ws, w.1 ∈ keysA (applyWrites m ws) := by
  induction ws with
  | nil => simp
  | cons w0 ws ih =>
    intro m w hw
    rw [applyWrites_cons]
    rcases List.mem_cons.mp hw with h | h
    · subst h
      exact mem_keysA_applyWrites_of_mem_keysA ws _ _ (mem_keysA_setA_self _ _ _)
    · exact ih _ w h

theorem nodup_keysA_applyWrites {α : Type} (ws : List (String × α)) :
    ∀ m : List (String × α), (keysA m).Nodup →
      (keysA (applyWrites m ws)).Nodup := by
  induction ws with
  | nil => intro m h; exact h
  | cons w ws ih =>
    intro m h
    rw [applyWrites_cons]
    exact ih _ (nodup_keysA_setA _ _ _ h)

/-- Extensionality for association maps with distinct keys: equal key lists
and equal lookups force equal maps. -/
theorem eq_of_keysA_lookupA {α : Type} :
    ∀ m1 m2 : List (String × α), keysA m1 = keysA m2 →
      (∀ c, lookupA c m1 = lookupA c m2) → (keysA m1).Nodup → m1 = m2 := by
  intro m1
  induction m1 with
  | nil =>
    intro m2 hk _ _
    cases m2 with
    | nil => rfl
    | cons hd t => simp [keysA] at hk
  | cons hd t ih =>
    intro m2 hk hl hn
    obtain ⟨k, v⟩ := hd
    cases m2 with
    | nil => simp [keysA] at hk
    | cons hd2 t2 =>
      obtain ⟨k2, v2⟩ := hd2
      simp only [keysA_cons, List.cons.injEq] at hk
      obtain ⟨hkk, hkt⟩ := hk
      subst hkk
      simp only [keysA_cons, List.nodup_cons] at hn
      have hv : v = v2 := by
        have h := hl k
        simp only [lookupA, if_pos rfl] at h
        exact Option.some.inj h
      subst hv
      have htails : t = t2 := by
        apply ih t2 hkt _ hn.2
        intro c
        by_cases hc : k = c
        · subst hc
          rw [lookupA_eq_none t k hn.1, lookupA_eq_none t2 k (hkt ▸ hn.1)]
        · have h := hl c
          simp only [lookupA, if_neg hc] at h
          exact h
      rw [htails]

/-- Re-running an entire write sequence over its own result changes nothing:
every written key is already present (so the key list is unchanged) and the
last write to each key wins again. -/
theorem applyWrites_idem {α : Type} (m : List (String × α))
    (ws : List (String × α)) (hn : (keysA m).Nodup) :
    applyWrites (applyWrites m ws) ws = applyWrites m ws := by
  have hkeys : keysA (applyWrites (applyWrites m ws) ws) = keysA (applyWrites m ws) :=
    keysA_applyWrites_of_mem ws _ (fun w hw => mem_keysA_applyWrites ws m w hw)
  apply eq_of_keysA_lookupA _ _ hkeys
  · intro c
    rw [lookupA_applyWrites ws (applyWrites m ws) c]
    cases hlw : lastWrite c ws with
    | some v =>
      rw [lookupA_applyWrites ws m c, hlw]
    | none => simp
  · rw [hkeys]
    exact nodup_keysA_applyWrites ws m hn

/-! ## Lemmas: the merge loops as write sequences -/

theorem foldl_headerSet_eq (k : String) (vs : List String) :
    ∀ m : HeaderMap,
      vs.foldl (fun a v => headerSet a k v) m
        = applyWrites m (vs.map (fun v => (canonicalMIMEHeaderKey k, [v]))) := by
  induction vs with
  | nil => intro m; rfl
  | cons v vs ih =>
    intro m
    simp only [List.foldl_cons, List.map_cons, applyWrites_cons]
    exact ih _

theorem mergeHeadersList_eq (u : HeaderMap) :
    ∀ m : HeaderMap,
      u.foldl (fun acc kv => kv.2.foldl (fun a v => headerSet a kv.1 v) acc) m
        = applyWrites m (headerWrites u) := by
  induction u with
  | nil => intro m; rfl
  | cons kv rest ih =>
    intro m
    simp only [List.foldl_cons, headerWrites, List.flatMap_cons]
    rw [applyWrites_append, ← foldl_headerSet_eq]
    exact ih _

/-- `mergeHeaders` is the write sequence `headerWrites userHeaders` applied to
the (possibly empty) base map. -/
theorem mergeHeaders_eq_applyWrites (d u : Option HeaderMap) :
    mergeHeaders d u = applyWrites (d.getD []) (headerWrites (u.getD [])) :=
  mergeHeadersList_eq (u.getD []) (d.getD [])

/-- `mergeParams` is the user entries applied as a write sequence to the
(possibly empty) base map. -/
theorem mergeParams_eq_applyWrites (d u : Option ParamMap) :
    mergeParams d u = applyWrites (d.getD []) (u.getD []) := rfl

theorem lastWrite_mem {α : Type} (c : String) (ws : List (String × α)) (v : α)
    (h : lastWrite c ws = some v) : (c, v) ∈ ws := by
  induction ws with
  | nil => simp [lastWrite] at h
  | cons w ws ih =>
    simp only [lastWrite] at h
    cases hlw : lastWrite c ws with
    | some u =>
      rw [hlw] at h
      obtain rfl := Option.some.inj h
      exact List.mem_cons_of_mem _ (ih hlw)
    | none =>
      rw [hlw] at h
      split_ifs at h with hw
      obtain rfl := Option.some.inj h
      rw [← hw]
      exact List.mem_cons_self _ _

/-- Every write of a header merge sets a singleton value list. -/
theorem headerWrites_singleton (u : HeaderMap) (w : String × List String)
    (h : w ∈ headerWrites u) : ∃ x, w.2 = [x] := by
  unfold headerWrites at h
  rw [List.mem_flatMap] at h
  obtain ⟨kv, _, hw⟩ := h
  rw [List.mem_map] at hw
  obtain ⟨v, _, hv⟩ := hw
  exact ⟨v, by rw [← hv]⟩

/-! ## Lemmas: additive header writes (the dispatch's header-copy step) -/

theorem lookupA_appendAt_self (m : HeaderMap) (c v : String) :
    lookupA c (appendAt m c v) = some ((lookupA c m).getD [] ++ [v]) := by
  induction m with
  | nil => simp [appendAt, lookupA]
  | cons hd t ih =>
    obtain ⟨k0, vs⟩ := hd
    by_cases h0 : k0 = c
    · subst h0
      simp [appendAt, lookupA]
    · simp [appendAt, lookupA, h0, ih]

theorem lookupA_appendAt_ne (m : HeaderMap) (k v c : String) (h : k ≠ c) :
    lookupA c (appendAt m k v) = lookupA c m := by
  induction m with
  | nil => simp [appendAt, lookupA, h]
  | cons hd t ih =>
    obtain ⟨k0, vs⟩ := hd
    by_cases h0 : k0 = k
    · subst h0
      simp [appendAt, lookupA, h]
    · simp [appendAt, lookupA, h0, ih]

theorem lookupA_applyAdds (ws : List (String × String)) :
    ∀ (m : HeaderMap) (c : String),
      lookupA c (applyAdds m ws) =
        if ((ws.filter (fun w => w.1 == c)).map Prod.snd) = [] then lookupA c m
        else some ((lookupA c m).getD []
          ++ (ws.filter (fun w => w.1 == c)).map Prod.snd) := by
  induction ws with
  | nil => intro m c; simp [applyAdds]
  | cons w ws ih =>
    intro m c
    obtain ⟨w1, w2⟩ := w
    have hstep : applyAdds m ((w1, w2) :: ws) = applyAdds (appendAt m w1 w2) ws := rfl
    rw [hstep, ih]
    by_cases hw : w1 = c
    · subst hw
      simp only [lookupA_appendAt_self, Option.getD_some, List.filter_cons,
        beq_self_eq_true, if_true, List.map_cons]
      by_cases hrest : ((ws.filter (fun w => w.1 == w1)).map Prod.snd) = []
      · simp [hrest]
      · rw [if_neg hrest, if_neg (by simp)]
        simp [List.append_assoc]
    · have hf : (w1 == c) = false := by simp [hw]
      simp only [lookupA_appendAt_ne _ _ _ _ hw, List.filter_cons, hf,
        Bool.false_eq_true, if_false]

theorem applyAdds_append (m : HeaderMap) (ws1 ws2 : List (String × String)) :
    applyAdds m (ws1 ++ ws2) = applyAdds (applyAdds m ws1) ws2 := by
  simp [applyAdds, List.foldl_append]

theorem foldl_headerAdd_eq (k : String) (vs : List String) :
    ∀ m : HeaderMap,
      vs.foldl (fun a v => headerAdd a k v) m
        = applyAdds m (vs.map (fun v => (canonicalMIMEHeaderKey k, v))) := by
  induction vs with
  | nil => intro m; rfl
  | cons v vs ih =>
    intro m
    simp only [List.foldl_cons, List.map_cons]
    exact ih _

theorem copyHeadersList_eq (h : HeaderMap) :
    ∀ m : HeaderMap,
      h.foldl (fun acc kv => kv.2.foldl (fun a v => headerAdd a kv.1 v) acc) m
        = applyAdds m (headerAddWrites h) := by
  induction h with
  | nil => intro m; rfl
  | cons kv rest ih =>
    intro m
    simp only [List.foldl_cons, headerAddWrites, List.flatMap_cons]
    rw [applyAdds_append, ← foldl_headerAdd_eq]
    exact ih _

/-- The header map of the request after the dispatch's header-copy step is the
request's own header map with all configured values added over it. -/
theorem copyConfigHeaders_header (req : HttpRequest) (h : HeaderMap) :
    (copyConfigHeaders req h).header = applyAdds req.header (headerAddWrites h) :=
  copyHeadersList_eq h req.header

theorem copyConfigHeaders_method (req : HttpRequest) (h : HeaderMap) :
    (copyConfigHeaders req h).method = req.method := rfl

theorem copyConfigHeaders_url (req : HttpRequest) (h : HeaderMap) :
    (copyConfigHeaders req h).url = req.url := rfl

/-! ## Lemmas: the interceptor folds -/

theorem applyRequestInterceptorsAux_append_ok (l1 : List Interceptor) :
    ∀ (l2 : List Interceptor) (n : Nat) (req r : HttpRequest),
      applyRequestInterceptorsAux l1 n req = .ok r →
      applyRequestInterceptorsAux (l1 ++ l2) n req =
        applyRequestInterceptorsAux l2 (n + l1.length) r := by
  induction l1 with
  | nil =>
    intro l2 n req r h
    obtain rfl : req = r := by cases h; rfl
    simp [applyRequestInterceptorsAux]
  | cons i l1 ih =>
    intro l2 n req r h
    obtain ⟨ireq, iresp⟩ := i
    simp only [applyRequestInterceptorsAux, List.cons_append] at h ⊢
    cases ireq with
    | none => exact GoResult.noConfusion h
    | some f =>
      dsimp only at h ⊢
      cases hf : f req with
      | ok r2 =>
        rw [hf] at h
        have h2 := ih l2 (n + 1) r2 r h
        have hn : n + 1 + l1.length = n + l1.length + 1 := by omega
        rw [hn] at h2
        exact h2
      | error e =>
        rw [hf] at h
        exact GoResult.noConfusion h

theorem applyResponseInterceptorsAux_append_ok (l1 : List Interceptor) :
    ∀ (l2 : List Interceptor) (n : Nat) (resp r : Response),
      applyResponseInterceptorsAux l1 n resp = .ok r →
      applyResponseInterceptorsAux (l1 ++ l2) n resp =
        applyResponseInterceptorsAux l2 (n + l1.length) r := by
  induction l1 with
  | nil =>
    intro l2 n resp r h
    obtain rfl : resp = r := by cases h; rfl
    simp [applyResponseInterceptorsAux]
  | cons i l1 ih =>
    intro l2 n resp r h
    obtain ⟨ireq, iresp⟩ := i
    simp only [applyResponseInterceptorsAux, List.cons_append] at h ⊢
    cases iresp with
    | none => exact GoResult.noConfusion h
    | some f =>
      dsimp only at h ⊢
      cases hf : f resp with
      | ok r2 =>
        rw [hf] at h
        have h2 := ih l2 (n + 1) r2 r h
        have hn : n + 1 + l1.length = n + l1.length + 1 := by omega
        rw [hn] at h2
        exact h2
      | error e =>
        rw [hf] at h
        exact GoResult.noConfusion h

/-- The request-stage fold ignores the response halves entirely. -/
theorem applyRequestInterceptorsAux_strip (l : List Interceptor) :
    ∀ (n : Nat) (req : HttpRequest),
      applyRequestInterceptorsAux (l.map stripResponseHalf) n req
        = applyRequestInterceptorsAux l n req := by
  induction l with
  | nil => intro n req; rfl
  | cons i l ih =>
    intro n req
    simp only [List.map_cons, applyRequestInterceptorsAux, stripResponseHalf]
    cases i.request with
    | none => rfl
    | some f => cases f req <;> simp [ih]

/-! ## Lemmas: dispatch plumbing -/

/-- `prepareRequestBody` never fails: it returns the config's body verbatim. -/
theorem prepareRequestBody_eq (cfg : Config) :
    prepareRequestBody cfg = .ok cfg.body := by
  unfold prepareRequestBody
  cases cfg.body <;> rfl

/-- Unfolds `Client.Request` past a successful request construction and a
successful interceptor fold: the rest of the dispatch is the transport call on
the header-copied request followed by status classification. -/
theorem Request_after_transport (c : Client)
    (nr : String → String → Option Bytes → Except GoError HttpRequest)
    (t : HttpRequest → Except GoError HttpResponse) (cfg : Config)
    (req req2 : HttpRequest)
    (hnr : nr (mergeConfig c.config cfg).method (mergeConfig c.config cfg).url
      (mergeConfig c.config cfg).body = .ok req)
    (hint : applyRequestInterceptors c.interceptors req = .ok req2) :
    c.Request nr t cfg =
      match t (copyConfigHeaders req2 ((mergeConfig c.config cfg).headers.getD [])) with
      | .error e => .err (.wrapped "executing request" e)
      | .ok resp =>
        if 400 ≤ resp.statusCode then .err (.requestError (mkRequestError resp))
        else
          match parseResponse resp with
          | .error e => .err e
          | .ok r => .ok r := by
  simp only [Client.Request, prepareRequestBody_eq, hnr, hint]

/-- A failing interceptor fold aborts the dispatch with the wrapped
interceptor error, whatever the transport is. -/
theorem Request_interceptor_failure (c : Client)
    (nr : String → String → Option Bytes → Except GoError HttpRequest)
    (t : HttpRequest → Except GoError HttpResponse) (cfg : Config)
    (req : HttpRequest) (e : GoError)
    (hnr : nr (mergeConfig c.config cfg).method (mergeConfig c.config cfg).url
      (mergeConfig c.config cfg).body = .ok req)
    (hint : applyRequestInterceptors c.interceptors req = .err e) :
    c.Request nr t cfg = .err (.wrapped "applying request interceptors" e) := by
  simp only [Client.Request, prepareRequestBody_eq, hnr, hint]

/-! # The claims -/

/-- C1: the specification says a transform with an absent half is a no-op for
that stage (the value passes through unchanged, no failure, no abnormal
termination). The code instead calls the nil function field: with the
README's own one-sided interceptors registered, the request-stage fold over a
response-only interceptor panics (nil-function call), and the response-stage
fold over a request-only interceptor panics symmetrically — it does not pass
the value through. -/
theorem nilTransformHalf_panics :
    applyRequestInterceptors [responseOnlyInterceptor] reqA = .panicked ∧
    applyResponseInterceptors [requestOnlyInterceptor] respA = .panicked :=
  ⟨rfl, rfl⟩

/-- C2: the specification requires that after `merge(base, override)` the
base's header mapping is unchanged and not aliased by the result. In the code
`mergeHeaders` writes through the base's own map reference and returns that
very reference: on the heap `heap2` (base map {A: ["1"]} at pointer 0,
override map {A: ["2"]} at pointer 1) the merge returns the base pointer
itself, and the map at the base pointer has been mutated from {A: ["1"]} to
{A: ["2"]}. -/
theorem mergeHeadersRef_mutates_and_aliases_base :
    (mergeHeadersRef heap2 (some 0) (some 1)).2 = 0 ∧
    ((mergeHeadersRef heap2 (some 0) (some 1)).1).get 0 = [("A", ["2"])] ∧
    heap2.get 0 = [("A", ["1"])] := by decide

/-- C3 (counterexample): with base headers {A: ["1"]} and override headers
{A: ["2", "3"]}, the merged value list under "A" is ["3"] — the loop calls
`Set` once per override value, so only the last override value survives — and
not the override's entire list ["2", "3"] as the claim states. -/
theorem mergeHeaders_override_list_not_intact :
    mergeHeaders (some [("A", ["1"])]) (some [("A", ["2", "3"])])
      = [("A", ["3"])] ∧
    lookupA "A" (mergeHeaders (some [("A", ["1"])]) (some [("A", ["2", "3"])]))
      ≠ some ["2", "3"] := by decide

/-- C3 (amended): for every key the override writes at least once, the merged
configuration's value list under the canonical key is the singleton holding
the last value the override writes there (each write is a singleton `Set`),
not the override's entire value list; keys the override does not write keep
the base's value list. -/
theorem mergeHeaders_lastWrite_characterization (d u : Option HeaderMap)
    (c : String) :
    lookupA c (mergeHeaders d u) =
      (match lastWrite c (headerWrites (u.getD [])) with
       | some v => some v
       | none => lookupA c (d.getD [])) ∧
    ∀ v, lastWrite c (headerWrites (u.getD [])) = some v → ∃ x, v = [x] := by
  constructor
  · rw [mergeHeaders_eq_applyWrites, lookupA_applyWrites]
    cases lastWrite c (headerWrites (u.getD [])) <;> rfl
  · intro v hv
    exact headerWrites_singleton (u.getD []) (c, v) (lastWrite_mem _ _ _ hv)

/-- Witness for the amended C3: at base {A: ["1"]}, override {A: ["2","3"]}
and key "A" the characterization yields the singleton ["3"]. -/
theorem mergeHeaders_lastWrite_characterization_witness :
    lookupA "A" (mergeHeaders (some [("A", ["1"])]) (some [("A", ["2", "3"])]))
      = some ["3"] ∧ ∃ x, (["3"] : List String) = [x] := by
  constructor
  · have h := (mergeHeaders_lastWrite_characterization (some [("A", ["1"])])
      (some [("A", ["2", "3"])]) "A").1
    rw [h]
    decide
  · exact (mergeHeaders_lastWrite_characterization (some [("A", ["1"])])
      (some [("A", ["2", "3"])]) "A").2 ["3"] (by decide)

/-- C7: merge is idempotent in its override argument: re-merging the same
override over an already-merged configuration changes nothing. The hypotheses
are the Go map invariant that the base configuration's header and param maps
have distinct keys. -/
theorem mergeConfig_idem (A B : Config)
    (hh : (keysA (A.headers.getD [])).Nodup)
    (hp : (keysA (A.params.getD [])).Nodup) :
    mergeConfig (mergeConfig A B) B = mergeConfig A B := by
  have hH : mergeHeaders (some (mergeHeaders A.headers B.headers)) B.headers
      = mergeHeaders A.headers B.headers := by
    rw [mergeHeaders_eq_applyWrites (some (mergeHeaders A.headers B.headers))
      B.headers]
    simp only [Option.getD_some]
    rw [mergeHeaders_eq_applyWrites A.headers B.headers]
    exact applyWrites_idem _ _ hh
  have hP : mergeParams (some (mergeParams A.params B.params)) B.params
      = mergeParams A.params B.params := by
    rw [mergeParams_eq_applyWrites (some (mergeParams A.params B.params))
      B.params]
    simp only [Option.getD_some]
    rw [mergeParams_eq_applyWrites A.params B.params]
    exact applyWrites_idem _ _ hp
  simp only [mergeConfig, Config.mk.injEq]
  refine ⟨?_, ?_, ?_, ?_, ?_, ?_⟩
  · split_ifs <;> rfl
  · split_ifs <;> rfl
  · rw [hH]
  · rw [hP]
  · split_ifs <;> rfl
  · split_ifs <;> rfl

/-- Witness for C7 at the concrete pair `cfgBase`, `cfgOver`. -/
theorem mergeConfig_idem_witness :
    ((keysA (cfgBase.headers.getD [])).Nodup ∧
      (keysA (cfgBase.params.getD [])).Nodup) ∧
    mergeConfig (mergeConfig cfgBase cfgOver) cfgOver
      = mergeConfig cfgBase cfgOver :=
  ⟨⟨by decide, by decide⟩, mergeConfig_idem cfgBase cfgOver (by decide) (by decide)⟩

/-- C8: the merged method is the override's iff the override method is
non-empty, else the base's; likewise for the url. -/
theorem mergeConfig_method_url_precedence (A B : Config) :
    (mergeConfig A B).method = (if B.method = "" then A.method else B.method) ∧
    (mergeConfig A B).url = (if B.url = "" then A.url else B.url) := by
  constructor
  · show (if B.method ≠ "" then B.method else A.method) = _
    split_ifs <;> simp_all
  · show (if B.url ≠ "" then B.url else A.url) = _
    split_ifs <;> simp_all

/-- C5: the interceptor folds run left to right in registration order; the
first transform to fail short-circuits the fold — the conclusion does not
depend on the interceptors after the failing one — and the reported error
wraps the underlying cause under a message naming the zero-based index of the
failing interceptor (the number of interceptors before it). The same holds
for both stages. -/
theorem interceptor_fold_short_circuit
    (pre post pre2 post2 : List Interceptor) (i j : Interceptor)
    (f : HttpRequest → Except GoError HttpRequest)
    (g : Response → Except GoError Response)
    (req req1 : HttpRequest) (resp resp1 : Response) (e1 e2 : GoError)
    (hpre : applyRequestInterceptors pre req = .ok req1)
    (hf : i.request = some f) (hfe : f req1 = .error e1)
    (hpre2 : applyResponseInterceptors pre2 resp = .ok resp1)
    (hg : j.response = some g) (hge : g resp1 = .error e2) :
    applyRequestInterceptors (pre ++ i :: post) req =
      .err (.wrapped ("request interceptor " ++ toString pre.length ++ " failed")
        e1) ∧
    applyResponseInterceptors (pre2 ++ j :: post2) resp =
      .err (.wrapped ("response interceptor " ++ toString pre2.length ++ " failed")
        e2) := by
  constructor
  · unfold applyRequestInterceptors at hpre ⊢
    rw [applyRequestInterceptorsAux_append_ok pre (i :: post) 0 req req1 hpre]
    simp only [applyRequestInterceptorsAux, hf, hfe, Nat.zero_add]
  · unfold applyResponseInterceptors at hpre2 ⊢
    rw [applyResponseInterceptorsAux_append_ok pre2 (j :: post2) 0 resp resp1 hpre2]
    simp only [applyResponseInterceptorsAux, hg, hge, Nat.zero_add]

/-- Witness for C5: with interceptors [id, fail, id], both folds stop at the
failing interceptor and report index 1. -/
theorem interceptor_fold_short_circuit_witness :
    applyRequestInterceptors
        ([idInterceptor] ++ failInterceptor :: [idInterceptor]) reqA =
      .err (.wrapped ("request interceptor " ++ toString (1 : Nat) ++ " failed")
        (.msg "boom")) ∧
    applyResponseInterceptors
        ([idInterceptor] ++ failInterceptor :: [idInterceptor]) respA =
      .err (.wrapped ("response interceptor " ++ toString (1 : Nat) ++ " failed")
        (.msg "boom")) :=
  interceptor_fold_short_circuit [idInterceptor] [idInterceptor] [idInterceptor]
    [idInterceptor] failInterceptor failInterceptor
    (fun _ => .error (.msg "boom")) (fun _ => .error (.msg "boom"))
    reqA reqA respA respA (.msg "boom") (.msg "boom") rfl rfl rfl rfl rfl rfl

/-- C4: when dispatch reaches the transport and the transport replies with a
response, a status ≥ 400 yields the `RequestError` (carrying that status code)
and no `Response`; a status 200 with a readable body yields a `Response` with
status code 200 and no error. A transport-level failure yields the distinct
wrapped "executing request" error, and a `RequestError` outcome arises only
from a transport reply with status ≥ 400 — never from a transport failure. -/
theorem request_status_classification (c : Client)
    (nr : String → String → Option Bytes → Except GoError HttpRequest)
    (t : HttpRequest → Except GoError HttpResponse) (cfg : Config) :
    (∀ (req req2 : HttpRequest) (resp : HttpResponse),
      nr (mergeConfig c.config cfg).method (mergeConfig c.config cfg).url
          (mergeConfig c.config cfg).body = .ok req →
      applyRequestInterceptors c.interceptors req = .ok req2 →
      t (copyConfigHeaders req2 ((mergeConfig c.config cfg).headers.getD []))
          = .ok resp →
      (400 ≤ resp.statusCode →
        c.Request nr t cfg = .err (.requestError (mkRequestError resp)) ∧
        (mkRequestError resp).statusCode = resp.statusCode) ∧
      (resp.statusCode = 200 → ∀ b : Bytes, resp.bodyRead = .ok b →
        ∃ r : Response, c.Request nr t cfg = .ok r ∧ r.statusCode = 200)) ∧
    (∀ (req req2 : HttpRequest) (e : GoError),
      nr (mergeConfig c.config cfg).method (mergeConfig c.config cfg).url
          (mergeConfig c.config cfg).body = .ok req →
      applyRequestInterceptors c.interceptors req = .ok req2 →
      t (copyConfigHeaders req2 ((mergeConfig c.config cfg).headers.getD []))
          = .error e →
      c.Request nr t cfg = .err (.wrapped "executing request" e)) ∧
    (∀ re : RequestError,
      c.Request nr t cfg = .err (.requestError re) →
      ∃ (req req2 : HttpRequest) (resp : HttpResponse),
        nr (mergeConfig c.config cfg).method (mergeConfig c.config cfg).url
            (mergeConfig c.config cfg).body = .ok req ∧
        applyRequestInterceptors c.interceptors req = .ok req2 ∧
        t (copyConfigHeaders req2 ((mergeConfig c.config cfg).headers.getD []))
            = .ok resp ∧
        400 ≤ resp.statusCode ∧ re = mkRequestError resp) := by
  refine ⟨?_, ?_, ?_⟩
  · intro req req2 resp hnr hint ht
    rw [Request_after_transport c nr t cfg req req2 hnr hint, ht]
    dsimp only
    constructor
    · intro hs
      rw [if_pos hs]
      exact ⟨rfl, rfl⟩
    · intro hs b hb
      rw [if_neg (by omega)]
      have hp : parseResponse resp
          = .ok ⟨resp.status, resp.statusCode, b, resp.header⟩ := by
        simp [parseResponse, hb]
      rw [hp]
      exact ⟨⟨resp.status, resp.statusCode, b, resp.header⟩, rfl, hs⟩
  · intro req req2 e hnr hint ht
    rw [Request_after_transport c nr t cfg req req2 hnr hint, ht]
  · intro re h
    simp only [Client.Request, prepareRequestBody_eq] at h
    cases hnr : nr (mergeConfig c.config cfg).method (mergeConfig c.config cfg).url
        (mergeConfig c.config cfg).body with
    | error e2 =>
      rw [hnr] at h
      simp at h
    | ok req =>
      rw [hnr] at h
      dsimp only at h
      cases hint : applyRequestInterceptors c.interceptors req with
      | panicked =>
        rw [hint] at h
        simp at h
      | err e2 =>
        rw [hint] at h
        simp at h
      | ok req2 =>
        rw [hint] at h
        dsimp only at h
        cases ht : t (copyConfigHeaders req2
            ((mergeConfig c.config cfg).headers.getD [])) with
        | error e2 =>
          rw [ht] at h
          simp at h
        | ok resp =>
          rw [ht] at h
          dsimp only at h
          by_cases hs : 400 ≤ resp.statusCode
          · rw [if_pos hs] at h
            refine ⟨req, req2, resp, rfl, hint, ht, hs, ?_⟩
            have h2 := GoResult.err.inj h
            exact (GoError.requestError.inj h2).symm
          · rw [if_neg hs] at h
            cases hb : resp.bodyRead with
            | error e2 =>
              have hp : parseResponse resp
                  = .error (.wrapped "reading response body" e2) := by
                simp [parseResponse, hb]
              rw [hp] at h
              simp at h
            | ok b =>
              have hp : parseResponse resp
                  = .ok ⟨resp.status, resp.statusCode, b, resp.header⟩ := by
                simp [parseResponse, hb]
              rw [hp] at h
              simp at h

/-- Witness for C4: against a mock transport replying 500 the dispatch yields
the `RequestError` with status code 500; against one replying 200 it yields a
`Response` with status code 200. -/
theorem request_status_classification_witness :
    clientA.Request newRequestOk transport500 cfgGet =
      .err (.requestError (mkRequestError httpResp500)) ∧
    ∃ r : Response, clientA.Request newRequestOk transport200 cfgGet = .ok r ∧
      r.statusCode = 200 := by
  constructor
  · exact (((request_status_classification clientA newRequestOk transport500
      cfgGet).1 reqA reqA httpResp500 rfl rfl rfl).1 (by decide)).1
  · exact ((request_status_classification clientA newRequestOk transport200
      cfgGet).1 reqA reqA httpResp200 rfl rfl rfl).2 (by decide) [] rfl

/-- C6: dispatch invokes the request-stage fold automatically before handing
the request to the transport, and never invokes the response stage:
(1) the outcome is unchanged when every registered interceptor's response half
is removed (the response transforms are never consulted, whatever the
transport's outcome); (2) a request-stage failure aborts the dispatch with the
wrapped interceptor error for every transport (the transport is never
reached); (3) when the request stage succeeds, the outcome depends on the
transport only through its reply to the interceptor-transformed,
header-copied request. -/
theorem request_invokes_only_request_stage (c : Client)
    (nr : String → String → Option Bytes → Except GoError HttpRequest)
    (t : HttpRequest → Except GoError HttpResponse) (cfg : Config) :
    (Client.Request ⟨c.config, c.interceptors.map stripResponseHalf⟩ nr t cfg
      = c.Request nr t cfg) ∧
    (∀ (req : HttpRequest) (e : GoError),
      nr (mergeConfig c.config cfg).method (mergeConfig c.config cfg).url
          (mergeConfig c.config cfg).body = .ok req →
      applyRequestInterceptors c.interceptors req = .err e →
      ∀ t2 : HttpRequest → Except GoError HttpResponse,
        c.Request nr t2 cfg
          = .err (.wrapped "applying request interceptors" e)) ∧
    (∀ (req req2 : HttpRequest),
      nr (mergeConfig c.config cfg).method (mergeConfig c.config cfg).url
          (mergeConfig c.config cfg).body = .ok req →
      applyRequestInterceptors c.interceptors req = .ok req2 →
      ∀ t1 t2 : HttpRequest → Except GoError HttpResponse,
        t1 (copyConfigHeaders req2 ((mergeConfig c.config cfg).headers.getD []))
          = t2 (copyConfigHeaders req2 ((mergeConfig c.config cfg).headers.getD [])) →
        c.Request nr t1 cfg = c.Request nr t2 cfg) := by
  refine ⟨?_, ?_, ?_⟩
  · simp only [Client.Request, applyRequestInterceptors,
      applyRequestInterceptorsAux_strip]
  · intro req e hnr hint t2
    exact Request_interceptor_failure c nr t2 cfg req e hnr hint
  · intro req req2 hnr hint t1 t2 htt
    rw [Request_after_transport c nr t1 cfg req req2 hnr hint,
      Request_after_transport c nr t2 cfg req req2 hnr hint, htt]

/-- Witness for C6: for the client with one failing interceptor, stripping the
response halves leaves the outcome unchanged, and the dispatch aborts with the
wrapped interceptor error without consulting the transport. -/
theorem request_invokes_only_request_stage_witness :
    Client.Request ⟨clientFail.config, clientFail.interceptors.map stripResponseHalf⟩
        newRequestOk transport200 cfgGet
      = clientFail.Request newRequestOk transport200 cfgGet ∧
    clientFail.Request newRequestOk transport500 cfgGet
      = .err (.wrapped "applying request interceptors"
          (.wrapped ("request interceptor " ++ toString (0 : Nat) ++ " failed")
            (.msg "boom"))) := by
  constructor
  · exact (request_invokes_only_request_stage clientFail newRequestOk
      transport200 cfgGet).1
  · exact (request_invokes_only_request_stage clientFail newRequestOk
      transport500 cfgGet).2.1 reqA
      (.wrapped ("request interceptor " ++ toString (0 : Nat) ++ " failed")
        (.msg "boom")) rfl rfl transport500

/-- C9: the dispatch's header-copy step (after the request interceptors have
run) has additive semantics: for every canonical key, the outgoing request's
value list is the request's existing values — e.g. ones set by a request
interceptor — followed by every configured value for that key, in order; a
key with no configured values is untouched. Nothing is replaced or dropped. -/
theorem copyConfigHeaders_additive (req : HttpRequest) (h : HeaderMap)
    (c : String) :
    lookupA c (copyConfigHeaders req h).header =
      (if addedVals c h = [] then lookupA c req.header
       else some ((lookupA c req.header).getD [] ++ addedVals c h)) := by
  rw [copyConfigHeaders_header, lookupA_applyAdds]
  simp only [addedVals]

/-- C10: `CancelableRequest` delegates to `Request` unchanged: for every host
request constructor and transport (which absorb the ambient context) and every
configuration, the outcomes are identical. -/
theorem cancelableRequest_eq_request (c : Client)
    (nr : String → String → Option Bytes → Except GoError HttpRequest)
    (t : HttpRequest → Except GoError HttpResponse) (cfg : Config) :
    c.CancelableRequest nr t cfg = c.Request nr t cfg := rfl

end GoAxios
